import Mathlib

/-!
# Sameness check (`lonestardist/experimental/samenesscheck/gen.cpp`) and
# the AIG optimisation command (`core/commands/optimization/aigscript.hpp`)

A shallow embedding of the two source files and the properties proved about
them.

* `SamenessCheck` embeds `main` of `gen.cpp`: the `do_all` over the master
  nodes of the first graph, the loop over each node's edges, the inner search
  in the second graph's edge list of the same node, and the fatal
  `GALOIS_DIE` on an edge that is not found. `do_all` is a parallel loop
  without an order among its iterations; `main` takes them in range order and
  `runIn` in any given order.
* `AigScript` embeds `aigscript_command::execute`: the `switch` on the
  `strategy` field and the effect on the network store.

The distributed graph type (`galois::graphs::DistGraph`) and the optimisation
pipelines (`oracle::aig_script` ...) are libraries outside the two files; they
appear here through the read interface the code uses.
-/

namespace SamenessCheck

/-! ## Data model -/

/-- An edge as the code reads it: `getEdgeDst` yields the destination as a
local node handle of the shard, `getEdgeData` the `unsigned` weight. -/
structure Edge where
  edgeDst : Nat
  edgeData : Nat
deriving DecidableEq, Repr

/-- The read interface of one local shard (`Graph* regular`): the number of
local node handles (`size()`, handles are `0 .. numNodes-1`, masters and
mirrors), `masterNodesRange()`, `edges(node)` and `getGID(handle)`. The code
reads the second shard's `edges` at handles of the first shard, so `edges` is
taken as given for every handle. -/
structure Graph where
  numNodes : Nat
  masterNodesRange : List Nat
  edges : Nat → List Edge
  getGID : Nat → Nat

/-- The two states of a run: the process is either still running or has been
killed by `GALOIS_DIE`. -/
inductive Status where
  | RUNNING
  | ABORTED
deriving DecidableEq, Repr

/-- What the program prints: the progress line of `gPrint`, the mismatch line
of `printf("Edge %lu to %lu with same weight not found\n", ...)`, kept with
its two arguments, and the message of `GALOIS_DIE("An edge was not found")`. -/
inductive Line where
  | graphsLoaded
  | edgeNotFound (src dst : Nat)
  | anEdgeWasNotFound
deriving DecidableEq, Repr

/-- A visit of the outer edge loop: the master node handle and the edge of the
first graph under comparison. -/
abbrev Visit := Nat × Edge

/-- State of a run: the status, the printed lines in order, and (as
instrumentation) the edges of the first graph for which the inner search was
executed, in order. -/
structure RunState where
  status : Status
  out : List Line
  compared : List Visit
deriving DecidableEq, Repr

/-! ## The code -/

/-- The inner loop `for (auto edge2 : regular2->edges(node))`: the value of
`found` when the loop is left. -/
def searchEdges (edgeDst edgeData : Nat) : List Edge → Bool
  | [] => false
  | edge2 :: rest =>
    if edge2.edgeDst = edgeDst then
      if edge2.edgeData = edgeData then true
      else searchEdges edgeDst edgeData rest
    else searchEdges edgeDst edgeData rest

/-- The line printed in the `!found` branch. -/
def mismatchLine (regular : Graph) (node : Nat) (edge : Edge) : Line :=
  Line.edgeNotFound (regular.getGID node) (regular.getGID edge.edgeDst)

/-- The loop `for (auto edge : regular->edges(node))` over the remaining edges
of `node`. On `!found` the line is printed and `GALOIS_DIE` kills the process:
nothing after it is executed. -/
def checkEdges (regular regular2 : Graph) (node : Nat) : List Edge → RunState → RunState
  | [], s => s
  | edge :: rest, s =>
    let found := searchEdges edge.edgeDst edge.edgeData (regular2.edges node)
    let s1 : RunState := { s with compared := s.compared ++ [(node, edge)] }
    if found then checkEdges regular regular2 node rest s1
    else { s1 with status := Status.ABORTED,
                   out := s1.out ++ [mismatchLine regular node edge, Line.anEdgeWasNotFound] }

/-- The `galois::do_all` over master nodes, one iteration at a time in the
order of the list given. The library loop is parallel and fixes no order among
the iterations, so the list may be any arrangement of the master range. A node
is only started while the process is alive. -/
def do_all (regular regular2 : Graph) : List Nat → RunState → RunState
  | [], s => s
  | node :: rest, s =>
    let s1 := checkEdges regular regular2 node (regular.edges node) s
    match s1.status with
    | Status.ABORTED => s1
    | Status.RUNNING => do_all regular regular2 rest s1

/-- The state when the comparison starts: the progress line is out. -/
def start : RunState :=
  { status := Status.RUNNING, out := [Line.graphsLoaded], compared := [] }

/-- The body of `main` after both graphs are loaded, with the iterations of
`do_all` taken in range order. -/
def main (regular regular2 : Graph) : RunState :=
  do_all regular regular2 regular.masterNodesRange start

/-- The body of `main` after both graphs are loaded, with the iterations of
`do_all` taken one at a time in the order `order` of the master nodes. -/
def runIn (regular regular2 : Graph) (order : List Nat) : RunState :=
  do_all regular regular2 order start

/-- The value `main` returns: `0` on a normal return, nothing when the process
was aborted. -/
def exitValue (s : RunState) : Option Nat :=
  match s.status with
  | Status.RUNNING => some 0
  | Status.ABORTED => none

/-! ## The run as a machine over the traversal -/

/-- The edges of the first graph in traversal order: master nodes in range
order, each node's edges in list order. -/
def traversal (regular : Graph) : List Visit :=
  regular.masterNodesRange.flatMap (fun node => (regular.edges node).map (Prod.mk node))

/-- One transition: an aborted run stays as it is; a running one executes the
loop body for the visited edge. -/
def step (regular regular2 : Graph) (s : RunState) (v : Visit) : RunState :=
  match s.status with
  | Status.ABORTED => s
  | Status.RUNNING => checkEdges regular regular2 v.1 [v.2] s

/-- The edges of the first graph in the order of a run that takes the master
nodes in the order `order`: each node's edges in list order. -/
def traversalIn (regular : Graph) (order : List Nat) : List Visit :=
  order.flatMap (fun node => (regular.edges node).map (Prod.mk node))

/-- The state after the first `k` visits of a run that takes the master nodes
in the order `order`. -/
def stateAfterIn (regular regular2 : Graph) (order : List Nat) (k : Nat) : RunState :=
  ((traversalIn regular order).take k).foldl (step regular regular2) start

/-! ## Specification vocabulary -/

/-- The second graph's edge list of the visited node holds an edge with the
same destination and an equal weight. -/
def Matched (regular2 : Graph) (v : Visit) : Prop :=
  ∃ edge2 ∈ regular2.edges v.1, edge2.edgeDst = v.2.edgeDst ∧ edge2.edgeData = v.2.edgeData

/-- The check completes: `main` returns normally. -/
def Passes (regular regular2 : Graph) : Prop :=
  (main regular regular2).status = Status.RUNNING

instance (regular regular2 : Graph) : Decidable (Passes regular regular2) := by
  unfold Passes; infer_instance

/-- The result of the inner search for a visit, as a boolean. -/
def foundIn (regular2 : Graph) (v : Visit) : Bool :=
  searchEdges v.2.edgeDst v.2.edgeData (regular2.edges v.1)

/-- The first mismatch line among the printed lines, as the pair of global
identifiers it names. -/
def firstMismatch : List Line → Option (Nat × Nat)
  | [] => none
  | Line.edgeNotFound src dst :: _ => some (src, dst)
  | Line.graphsLoaded :: rest => firstMismatch rest
  | Line.anEdgeWasNotFound :: rest => firstMismatch rest

/-- The global edges a shard holds, over all its local handles: source global
identifier, destination global identifier, weight. -/
def globalEdges (g : Graph) : List (Nat × Nat × Nat) :=
  (List.range g.numNodes).flatMap fun h =>
    (g.edges h).map fun e => (g.getGID h, g.getGID e.edgeDst, e.edgeData)

/-- The global edges of a shard's master nodes, in traversal order. -/
def masterGlobalEdges (g : Graph) : List (Nat × Nat × Nat) :=
  (traversal g).map fun v => (g.getGID v.1, g.getGID v.2.edgeDst, v.2.edgeData)

/-- Handles of a shard are in range: the master nodes and the destinations of
all stored edges are local handles below `numNodes`. -/
def WellFormed (g : Graph) : Prop :=
  (∀ n ∈ g.masterNodesRange, n < g.numNodes) ∧
    ∀ h < g.numNodes, ∀ e ∈ g.edges h, e.edgeDst < g.numNodes

instance (g : Graph) : Decidable (WellFormed g) := by
  unfold WellFormed; infer_instance

/-- Two shards have identical handle-to-global-identifier mappings: the same
handles, mapped to the same identifiers. -/
def SameIdMap (a b : Graph) : Prop :=
  a.numNodes = b.numNodes ∧ ∀ h < a.numNodes, a.getGID h = b.getGID h

instance (a b : Graph) : Decidable (SameIdMap a b) := by
  unfold SameIdMap; infer_instance

/-- The handle-to-global-identifier mapping of a shard is injective on its
handles. -/
def IdMapInjective (g : Graph) : Prop :=
  ∀ h1 < g.numNodes, ∀ h2 < g.numNodes, g.getGID h1 = g.getGID h2 → h1 = h2

instance (g : Graph) : Decidable (IdMapInjective g) := by
  unfold IdMapInjective; infer_instance

/-- Modelled from the spec: the Identifier Translator query `resolveLocal`
(spec 4.1, 4.2), which `gen.cpp` never calls: the local handle of the shard
that holds a global identifier, or `none` when the shard holds no such node
(neither mastered nor mirrored). -/
def resolveLocal (g : Graph) (gid : Nat) : Option Nat :=
  (List.range g.numNodes).find? fun h => g.getGID h == gid

/-! ## Partitioned jobs -/

/-- Modelled from the spec: what the loader and partitioner (outside the source
files) fix for one shard (spec 3, 4.1): the global identifiers of the nodes the
process masters, in the order its master range lists them, the number of local
handles, and the translation between global identifiers and local handles. -/
structure Part where
  masters : List Nat
  numNodes : Nat
  toLocal : Nat → Nat
  toGlobal : Nat → Nat

/-- Modelled from the spec: the shard the loader hands to one process for a
graph instance given by its global adjacency (each node's outgoing edges as
destination global identifier and weight, spec 3): the master nodes are the
process's masters, every edge list is the node's global list, and nodes are
named by local handles. -/
def shardOf (adj : Nat → List Edge) (p : Part) : Graph :=
  { numNodes := p.numNodes
    masterNodesRange := p.masters.map p.toLocal
    edges := fun h => (adj (p.toGlobal h)).map fun e => ⟨p.toLocal e.edgeDst, e.edgeData⟩
    getGID := p.toGlobal }

/-- Modelled from the spec: one process of a job: how the loader shards the
first and the second graph instance on this process. The two shards are built
independently (spec 2), each with its own handle numbering. -/
structure Proc where
  first : Part
  second : Part

/-- The process whose two shards are laid out alike: the same master nodes and
the same handle numbering for both graph instances. -/
def sameShards (p : Part) : Proc := { first := p, second := p }

/-- Modelled from the spec: a congruent partitioning of the global node set:
the master sets of the processes, taken together, list every global node
exactly once (disjoint and covering), and on every process both graph
instances master the same nodes (spec 3). -/
def IsPartitioning (nodes : List Nat) (procs : List Proc) : Prop :=
  nodes.Nodup ∧ (procs.flatMap fun q => q.first.masters).Perm nodes ∧
    ∀ q ∈ procs, q.second.masters = q.first.masters

instance (nodes : List Nat) (procs : List Proc) : Decidable (IsPartitioning nodes procs) := by
  unfold IsPartitioning; infer_instance

/-- The translation of a shard is usable: translating an identifier to a
handle and back gives the identifier. -/
def Part.Valid (p : Part) : Prop := ∀ gid, p.toGlobal (p.toLocal gid) = gid

/-- Modelled from the spec: the job passes iff the local check of every
process passes (each process runs `main` on its two shards). -/
def jobPasses (adjA adjB : Nat → List Edge) (procs : List Proc) : Prop :=
  ∀ q ∈ procs, Passes (shardOf adjA q.first) (shardOf adjB q.second)

instance (adjA adjB : Nat → List Edge) (procs : List Proc) :
    Decidable (jobPasses adjA adjB procs) := by
  unfold jobPasses; infer_instance

/-- Modelled from the spec: the mismatch the job reports under the
deterministic order that takes the processes by rank and lets each process
visit its master range in order: the first mismatch line of the first process
whose local check fails. -/
def jobReport (adjA adjB : Nat → List Edge) : List Proc → Option (Nat × Nat)
  | [] => none
  | q :: rest =>
    match firstMismatch (main (shardOf adjA q.first) (shardOf adjB q.second)).out with
    | some r => some r
    | none => jobReport adjA adjB rest

/-- The visit of a shard that stands for a visit of the whole graph. -/
def localVisit (p : Part) (v : Visit) : Visit :=
  (p.toLocal v.1, ⟨p.toLocal v.2.edgeDst, v.2.edgeData⟩)

/-- The edges of the whole first graph over a list of global nodes, in order:
nodes in list order, each node's edges in list order. -/
def globalTraversal (adjA : Nat → List Edge) (nodes : List Nat) : List Visit :=
  nodes.flatMap fun n => (adjA n).map (Prod.mk n)

/-- The first edge of the whole first graph, in the order of `globalTraversal`,
without a match in the whole second graph, as the pair of global identifiers
of its endpoints. -/
def globalReport (adjA adjB : Nat → List Edge) (nodes : List Nat) : Option (Nat × Nat) :=
  ((globalTraversal adjA nodes).find? fun v =>
    !searchEdges v.2.edgeDst v.2.edgeData (adjB v.1)).map fun v => (v.1, v.2.edgeDst)

/-! ## Concrete shards

Single-process shards for the scenarios of the spec. Nodes `1, 2, 3` are held
at handles `0, 1, 2`. -/

/-- Handle `h` holds global identifier `h + 1`. -/
def gidSucc (h : Nat) : Nat := h + 1

/-- Shard with the edges `1->2 w5, 1->3 w2`. -/
def twoEdges : Graph :=
  { numNodes := 3, masterNodesRange := [0, 1, 2], getGID := gidSucc
    edges := fun n => match n with
      | 0 => [⟨1, 5⟩, ⟨2, 2⟩]
      | _ => [] }

/-- Shard with the single edge `1->2 w5`. -/
def oneEdge5 : Graph :=
  { numNodes := 3, masterNodesRange := [0, 1, 2], getGID := gidSucc
    edges := fun n => match n with
      | 0 => [⟨1, 5⟩]
      | _ => [] }

/-- Shard with the single edge `1->2 w6`. -/
def oneEdge6 : Graph :=
  { numNodes := 3, masterNodesRange := [0, 1, 2], getGID := gidSucc
    edges := fun n => match n with
      | 0 => [⟨1, 6⟩]
      | _ => [] }

/-- Shard with the single edge `1->2 w7`. -/
def oneEdge7 : Graph :=
  { numNodes := 3, masterNodesRange := [0, 1, 2], getGID := gidSucc
    edges := fun n => match n with
      | 0 => [⟨1, 7⟩]
      | _ => [] }

/-- Shard with the edges `1->2 w5, 2->3 w9`. -/
def extraEdge : Graph :=
  { numNodes := 3, masterNodesRange := [0, 1, 2], getGID := gidSucc
    edges := fun n => match n with
      | 0 => [⟨1, 5⟩]
      | 1 => [⟨2, 9⟩]
      | _ => [] }

/-- Shard holding the edge `1->2 w5` twice. -/
def doubledEdge : Graph :=
  { numNodes := 3, masterNodesRange := [0, 1, 2], getGID := gidSucc
    edges := fun n => match n with
      | 0 => [⟨1, 5⟩, ⟨1, 5⟩]
      | _ => [] }

/-- Shard with the edges `1->2 w5, 1->3 w2, 2->3 w9`, the first node's list in
the order `1->3, 1->2`. -/
def threeEdges : Graph :=
  { numNodes := 3, masterNodesRange := [0, 1, 2], getGID := gidSucc
    edges := fun n => match n with
      | 0 => [⟨2, 2⟩, ⟨1, 5⟩]
      | 1 => [⟨2, 9⟩]
      | _ => [] }

/-- The empty shard: no nodes. -/
def emptyGraph : Graph :=
  { numNodes := 0, masterNodesRange := [], getGID := fun h => h, edges := fun _ => [] }

/-- Process 0 of the first instance: it masters node `7` at handle `0` and
mirrors node `8` at handle `1`; edge `7->8 w5`. -/
def incongruentA : Graph :=
  { numNodes := 2, masterNodesRange := [0]
    getGID := fun h => match h with
      | 0 => 7
      | _ => 8
    edges := fun n => match n with
      | 0 => [⟨1, 5⟩]
      | _ => [] }

/-- Process 0 of the second instance, where node `7` is mastered by process 1
and not held here: handle `0` is node `3`, handle `1` node `8`; edge
`3->8 w5`. -/
def incongruentB : Graph :=
  { numNodes := 2, masterNodesRange := [0]
    getGID := fun h => match h with
      | 0 => 3
      | _ => 8
    edges := fun n => match n with
      | 0 => [⟨1, 5⟩]
      | _ => [] }

/-- Shard with nodes `10, 20, 30` at handles `0, 1, 2` and the edge
`10->20 w5`. -/
def shardNumberedA : Graph :=
  { numNodes := 3, masterNodesRange := [0]
    getGID := fun h => match h with
      | 0 => 10
      | 1 => 20
      | _ => 30
    edges := fun n => match n with
      | 0 => [⟨1, 5⟩]
      | _ => [] }

/-- Shard with the same nodes numbered otherwise, `10, 30, 20` at handles
`0, 1, 2`, and the same edge `10->20 w5`. -/
def shardNumberedB : Graph :=
  { numNodes := 3, masterNodesRange := [0]
    getGID := fun h => match h with
      | 0 => 10
      | 1 => 30
      | _ => 20
    edges := fun n => match n with
      | 0 => [⟨2, 5⟩]
      | _ => [] }

/-- Global adjacency with the edges `0->1 w5, 1->2 w9, 2->0 w4`. -/
def ringAdj : Nat → List Edge := fun n => match n with
  | 0 => [⟨1, 5⟩]
  | 1 => [⟨2, 9⟩]
  | 2 => [⟨0, 4⟩]
  | _ => []

/-- Global adjacency with the edges `0->1 w5, 1->2 w8, 2->0 w3`. -/
def ringAdjOther : Nat → List Edge := fun n => match n with
  | 0 => [⟨1, 5⟩]
  | 1 => [⟨2, 8⟩]
  | 2 => [⟨0, 3⟩]
  | _ => []

/-- One process mastering the nodes `0, 1, 2`, handles equal to identifiers,
both instances laid out alike. -/
def onePart : List Proc :=
  [sameShards
    { masters := [0, 1, 2], numNodes := 3, toLocal := fun g => g, toGlobal := fun h => h }]

/-- Two processes mastering `0` and `1, 2`, both instances laid out alike; the
second process numbers node `g` as handle `g + 10`. -/
def twoParts : List Proc :=
  [sameShards
    { masters := [0], numNodes := 3, toLocal := fun g => g, toGlobal := fun h => h },
   sameShards
    { masters := [1, 2], numNodes := 13, toLocal := fun g => g + 10,
      toGlobal := fun h => h - 10 }]

/-- Two processes mastering `0, 2` and `1`, handles equal to identifiers, both
instances laid out alike. -/
def splitParts : List Proc :=
  [sameShards
    { masters := [0, 2], numNodes := 3, toLocal := fun g => g, toGlobal := fun h => h },
   sameShards
    { masters := [1], numNodes := 3, toLocal := fun g => g, toGlobal := fun h => h }]

/-- Global adjacency with the single edge `0->1 w5`. -/
def edgeAdj : Nat → List Edge := fun n => match n with
  | 0 => [⟨1, 5⟩]
  | _ => []

/-- One process mastering the nodes `0, 1`, handles equal to identifiers, both
instances laid out alike. -/
def wholeProc : List Proc :=
  [sameShards
    { masters := [0, 1], numNodes := 2, toLocal := fun g => g, toGlobal := fun h => h }]

/-- Two processes mastering `0` and `1` in both instances. On process 0 the
shard of the first instance holds node `1` at handle `1`, the shard of the
second instance holds it at handle `2`. -/
def renumberedProcs : List Proc :=
  [{ first :=
      { masters := [0], numNodes := 2, toLocal := fun g => g, toGlobal := fun h => h }
     second :=
      { masters := [0], numNodes := 3
        toLocal := fun g => if g = 0 then 0 else g + 1
        toGlobal := fun h => if h = 0 then 0 else h - 1 } },
   sameShards
    { masters := [1], numNodes := 2, toLocal := fun g => g, toGlobal := fun h => h }]

/-- Shard with the edges `1->2 w5, 2->3 w9, 3->1 w4`. -/
def ringShard : Graph :=
  { numNodes := 3, masterNodesRange := [0, 1, 2], getGID := gidSucc
    edges := fun n => match n with
      | 0 => [⟨1, 5⟩]
      | 1 => [⟨2, 9⟩]
      | 2 => [⟨0, 4⟩]
      | _ => [] }

end SamenessCheck

/-! # The AIG optimisation command -/

namespace AigScript

/-- The five optimisation pipelines the command can construct. -/
inductive Pipeline where
  | aig_script
  | aig_script2
  | aig_script3
  | aig_script4
  | aig_script5
deriving DecidableEq, Repr

/-- What the environment provides for a network type: the `run` method of
each pipeline class (`oracle::aig_script` ...), `depth_view::depth()` and
`num_gates()`. -/
structure Lib (Ntk : Type) where
  run : Pipeline → Ntk → Ntk
  depth : Ntk → Nat
  num_gates : Ntk → Nat

/-- The lines the command writes to `std::cout`, with their numeric arguments
(the measured duration is left out). -/
inductive Msg where
  | depthNodes (depth nodes : Nat)
  | finalSize (size depth : Nat)
  | areaDelayProduct (value : Nat)
  | fullOptimization
  | finished
  | noAigStored
deriving DecidableEq, Repr

/-- The store `store<aig_ntk>()`: empty, or holding a current network among
the networks stored before and after it. -/
inductive Store (Ntk : Type) where
  | empty
  | holding (before : List Ntk) (current : Ntk) (after : List Ntk)

/-- The result of one execution: the store afterwards, the lines written, and
(as instrumentation) the pipelines whose `run` was called, in order. -/
structure Result (Ntk : Type) where
  store : Store Ntk
  out : List Msg
  ran : List Pipeline

/-- The `switch (strategy)`: the pipeline constructed in the selected case;
`default` shares the body of `case 0`. -/
def select (strategy : Nat) : Pipeline :=
  match strategy with
  | 0 => Pipeline.aig_script
  | 1 => Pipeline.aig_script2
  | 2 => Pipeline.aig_script3
  | 3 => Pipeline.aig_script4
  | 4 => Pipeline.aig_script5
  | _ => Pipeline.aig_script

/-- The method `aigscript_command::execute` for a value of the `strategy`
field. The product of the two `uint32_t` metrics wraps at `2^32`. -/
def execute {Ntk : Type} (lib : Lib Ntk) (strategy : Nat) : Store Ntk → Result Ntk
  | Store.empty =>
    { store := Store.empty, out := [Msg.noAigStored], ran := [] }
  | Store.holding before opt after =>
    let script := select strategy
    let opt2 := lib.run script opt
    { store := Store.holding before opt2 after
      out := [Msg.depthNodes (lib.depth opt) (lib.num_gates opt),
              Msg.depthNodes (lib.depth opt2) (lib.num_gates opt2),
              Msg.finalSize (lib.num_gates opt2) (lib.depth opt2),
              Msg.areaDelayProduct ((lib.num_gates opt2 * lib.depth opt2) % 2 ^ 32),
              Msg.fullOptimization,
              Msg.finished]
      ran := [script] }

/-- A library over numbers as networks: pipeline number `k` adds `k` to the
network. -/
def demoLib : Lib Nat :=
  { run := fun p n => match p with
      | Pipeline.aig_script => n + 1
      | Pipeline.aig_script2 => n + 2
      | Pipeline.aig_script3 => n + 3
      | Pipeline.aig_script4 => n + 4
      | Pipeline.aig_script5 => n + 5
    depth := fun n => n
    num_gates := fun n => 2 * n }

end AigScript

/-! # Theorems -/

namespace SamenessCheck

/-! ## Basic facts about the embedding -/

theorem searchEdges_iff (edgeDst edgeData : Nat) (eb : List Edge) :
    searchEdges edgeDst edgeData eb = true ↔
      ∃ edge2 ∈ eb, edge2.edgeDst = edgeDst ∧ edge2.edgeData = edgeData := by
  induction eb with
  | nil => simp [searchEdges]
  | cons e rest ih =>
    simp only [searchEdges, List.mem_cons, exists_eq_or_imp]
    by_cases h1 : e.edgeDst = edgeDst
    · by_cases h2 : e.edgeData = edgeData
      · simp [h1, h2]
      · simp [h1, h2, ih]
    · simp [h1, ih]

theorem foundIn_iff (regular2 : Graph) (v : Visit) :
    foundIn regular2 v = true ↔ Matched regular2 v := by
  unfold foundIn Matched
  exact searchEdges_iff _ _ _

theorem foldl_step_aborted (A B : Graph) (vs : List Visit) (s : RunState)
    (h : s.status = Status.ABORTED) : vs.foldl (step A B) s = s := by
  induction vs with
  | nil => rfl
  | cons v rest ih =>
    have hv : step A B s v = s := by unfold step; rw [h]
    rw [List.foldl_cons, hv]; exact ih

theorem step_found (A B : Graph) (out : List Line) (cmp : List Visit) (v : Visit)
    (hv : foundIn B v = true) :
    step A B ⟨Status.RUNNING, out, cmp⟩ v = ⟨Status.RUNNING, out, cmp ++ [v]⟩ := by
  unfold foundIn at hv
  simp [step, checkEdges, hv]

theorem step_missing (A B : Graph) (out : List Line) (cmp : List Visit) (v : Visit)
    (hv : foundIn B v = false) :
    step A B ⟨Status.RUNNING, out, cmp⟩ v =
      ⟨Status.ABORTED, out ++ [mismatchLine A v.1 v.2, Line.anEdgeWasNotFound],
        cmp ++ [v]⟩ := by
  unfold foundIn at hv
  simp [step, checkEdges, hv]

theorem foldl_step_all (A B : Graph) (vs : List Visit) (out : List Line) (cmp : List Visit)
    (hall : ∀ v ∈ vs, foundIn B v = true) :
    vs.foldl (step A B) ⟨Status.RUNNING, out, cmp⟩ = ⟨Status.RUNNING, out, cmp ++ vs⟩ := by
  induction vs generalizing cmp with
  | nil => simp
  | cons v rest ih =>
    rw [List.foldl_cons, step_found A B out cmp v (hall v (List.mem_cons_self _ _)),
      ih _ (fun w hw => hall w (List.mem_cons_of_mem _ hw))]
    simp

theorem foldl_step_split (A B : Graph) (pre post : List Visit) (v : Visit)
    (out : List Line) (cmp : List Visit)
    (hpre : ∀ w ∈ pre, foundIn B w = true) (hv : foundIn B v = false) :
    (pre ++ v :: post).foldl (step A B) ⟨Status.RUNNING, out, cmp⟩ =
      ⟨Status.ABORTED, out ++ [mismatchLine A v.1 v.2, Line.anEdgeWasNotFound],
        cmp ++ (pre ++ [v])⟩ := by
  rw [List.foldl_append, foldl_step_all A B pre out cmp hpre, List.foldl_cons,
    step_missing A B out _ v hv, foldl_step_aborted A B post _ rfl]
  simp

/-- Every list of visits is either matched throughout or splits at its first
unmatched visit. -/
theorem first_missing (B : Graph) (vs : List Visit) :
    (∀ v ∈ vs, foundIn B v = true) ∨
      ∃ pre v post, vs = pre ++ v :: post ∧ (∀ w ∈ pre, foundIn B w = true) ∧
        foundIn B v = false := by
  induction vs with
  | nil => left; simp
  | cons a rest ih =>
    by_cases ha : foundIn B a = true
    · rcases ih with h | ⟨pre, v, post, h1, h2, h3⟩
      · left
        intro w hw
        rcases List.mem_cons.1 hw with rfl | hw
        · exact ha
        · exact h w hw
      · right
        refine ⟨a :: pre, v, post, by rw [h1]; rfl, ?_, h3⟩
        intro w hw
        rcases List.mem_cons.1 hw with rfl | hw
        · exact ha
        · exact h2 w hw
    · right
      exact ⟨[], a, rest, rfl, by simp, by simpa using ha⟩

theorem checkEdges_eq_foldl (A B : Graph) (node : Nat) (es : List Edge)
    (out : List Line) (cmp : List Visit) :
    checkEdges A B node es ⟨Status.RUNNING, out, cmp⟩ =
      (es.map (Prod.mk node)).foldl (step A B) ⟨Status.RUNNING, out, cmp⟩ := by
  induction es generalizing cmp with
  | nil => rfl
  | cons e rest ih =>
    rw [List.map_cons, List.foldl_cons]
    by_cases h : foundIn B (node, e) = true
    · rw [step_found A B out cmp _ h, ← ih]
      unfold foundIn at h
      simp only at h
      simp [checkEdges, h]
    · have h2 : foundIn B (node, e) = false := by simpa using h
      rw [step_missing A B out cmp _ h2, foldl_step_aborted A B _ _ rfl]
      unfold foundIn at h2
      simp only at h2
      simp [checkEdges, h2]

theorem do_all_eq_foldl (A B : Graph) (nodes : List Nat) (s : RunState)
    (hs : s.status = Status.RUNNING) :
    do_all A B nodes s =
      (nodes.flatMap (fun node => (A.edges node).map (Prod.mk node))).foldl (step A B) s := by
  induction nodes generalizing s with
  | nil => rfl
  | cons n rest ih =>
    obtain ⟨st, out, cmp⟩ := s
    simp only at hs
    subst hs
    rw [List.flatMap_cons, List.foldl_append]
    unfold do_all
    simp only
    rw [checkEdges_eq_foldl A B n _ out cmp]
    cases h : (List.foldl (step A B) ⟨Status.RUNNING, out, cmp⟩
        (List.map (Prod.mk n) (A.edges n))).status with
    | RUNNING => simp only; exact ih _ h
    | ABORTED => simp only; rw [foldl_step_aborted A B _ _ h]

theorem main_eq_foldl (A B : Graph) :
    main A B = (traversal A).foldl (step A B) start :=
  do_all_eq_foldl A B _ start rfl

theorem mem_traversal (A : Graph) (n : Nat) (e : Edge) :
    (n, e) ∈ traversal A ↔ n ∈ A.masterNodesRange ∧ e ∈ A.edges n := by
  unfold traversal
  simp only [List.mem_flatMap, List.mem_map, Prod.mk.injEq]
  constructor
  · rintro ⟨m, hm, e2, he2, rfl, rfl⟩
    exact ⟨hm, he2⟩
  · rintro ⟨hn, he⟩
    exact ⟨n, hn, e, he, rfl, rfl⟩

theorem main_of_all (A B : Graph) (hall : ∀ v ∈ traversal A, foundIn B v = true) :
    main A B = ⟨Status.RUNNING, [Line.graphsLoaded], traversal A⟩ := by
  rw [main_eq_foldl]
  unfold start
  rw [foldl_step_all A B _ _ _ hall]
  simp

theorem main_of_split (A B : Graph) (pre post : List Visit) (v : Visit)
    (htrav : traversal A = pre ++ v :: post)
    (hpre : ∀ w ∈ pre, foundIn B w = true) (hv : foundIn B v = false) :
    main A B =
      ⟨Status.ABORTED, [Line.graphsLoaded, mismatchLine A v.1 v.2, Line.anEdgeWasNotFound],
        pre ++ [v]⟩ := by
  rw [main_eq_foldl, htrav]
  unfold start
  rw [foldl_step_split A B pre post v _ _ hpre hv]
  simp

theorem passes_iff_all (A B : Graph) :
    Passes A B ↔ ∀ v ∈ traversal A, foundIn B v = true := by
  unfold Passes
  rcases first_missing B (traversal A) with hall | ⟨pre, v, post, h1, h2, h3⟩
  · rw [main_of_all A B hall]
    simp only [true_iff]
    exact hall
  · rw [main_of_split A B pre post v h1 h2 h3]
    constructor
    · intro h
      simp at h
    · intro h
      have hv := h v (by rw [h1]; simp)
      rw [h3] at hv
      exact absurd hv (by decide)

theorem passes_iff (A B : Graph) :
    Passes A B ↔
      ∀ n ∈ A.masterNodesRange, ∀ e ∈ A.edges n,
        ∃ e2 ∈ B.edges n, e2.edgeDst = e.edgeDst ∧ e2.edgeData = e.edgeData := by
  rw [passes_iff_all]
  constructor
  · intro h n hn e he
    exact (foundIn_iff B (n, e)).1 (h (n, e) ((mem_traversal A n e).2 ⟨hn, he⟩))
  · rintro h ⟨n, e⟩ hv
    obtain ⟨hn, he⟩ := (mem_traversal A n e).1 hv
    exact (foundIn_iff B (n, e)).2 (h n hn e he)

/-- A failing run: the traversal splits at its first unmatched visit, and the
final state is the abort at that visit. -/
theorem main_of_fail (A B : Graph) (h : ¬ Passes A B) :
    ∃ pre v post, traversal A = pre ++ v :: post ∧ (∀ w ∈ pre, foundIn B w = true) ∧
      foundIn B v = false ∧
      main A B = ⟨Status.ABORTED,
        [Line.graphsLoaded, mismatchLine A v.1 v.2, Line.anEdgeWasNotFound], pre ++ [v]⟩ := by
  rcases first_missing B (traversal A) with hall | ⟨pre, v, post, h1, h2, h3⟩
  · exact absurd ((passes_iff_all A B).2 hall) h
  · exact ⟨pre, v, post, h1, h2, h3, main_of_split A B pre post v h1 h2 h3⟩

theorem mem_traversalIn (A : Graph) (order : List Nat) (n : Nat) (e : Edge) :
    (n, e) ∈ traversalIn A order ↔ n ∈ order ∧ e ∈ A.edges n := by
  unfold traversalIn
  simp only [List.mem_flatMap, List.mem_map, Prod.mk.injEq]
  constructor
  · rintro ⟨m, hm, e2, he2, rfl, rfl⟩
    exact ⟨hm, he2⟩
  · rintro ⟨hn, he⟩
    exact ⟨n, hn, e, he, rfl, rfl⟩

theorem runIn_eq_foldl (A B : Graph) (order : List Nat) :
    runIn A B order = (traversalIn A order).foldl (step A B) start :=
  do_all_eq_foldl A B order start rfl

theorem runIn_of_all (A B : Graph) (order : List Nat)
    (hall : ∀ v ∈ traversalIn A order, foundIn B v = true) :
    runIn A B order = ⟨Status.RUNNING, [Line.graphsLoaded], traversalIn A order⟩ := by
  rw [runIn_eq_foldl]
  unfold start
  rw [foldl_step_all A B _ _ _ hall]
  simp

theorem runIn_of_split (A B : Graph) (order : List Nat) (pre post : List Visit) (v : Visit)
    (htrav : traversalIn A order = pre ++ v :: post)
    (hpre : ∀ w ∈ pre, foundIn B w = true) (hv : foundIn B v = false) :
    runIn A B order =
      ⟨Status.ABORTED, [Line.graphsLoaded, mismatchLine A v.1 v.2, Line.anEdgeWasNotFound],
        pre ++ [v]⟩ := by
  rw [runIn_eq_foldl, htrav]
  unfold start
  rw [foldl_step_split A B pre post v _ _ hpre hv]
  simp

theorem not_matched_of_foundIn (B : Graph) (v : Visit) (h : foundIn B v = false) :
    ¬ Matched B v := by
  intro hm
  have := (foundIn_iff B v).2 hm
  rw [h] at this
  exact absurd this (by decide)

theorem foundIn_of_not_matched (B : Graph) (v : Visit) (h : ¬ Matched B v) :
    foundIn B v = false := by
  cases hf : foundIn B v
  · rfl
  · exact absurd ((foundIn_iff B v).1 hf) h

/-! ## The claims -/

/-- C1 (containment). The sameness check of `main` completes normally exactly
when, for every master node `n` of the first graph and every edge of `n`
there, the second graph's edge list of `n` holds an edge with the same
destination and an equal weight. Success does not need the reverse
containment: some passing pair has an edge in the second graph that the first
lacks. The pair `1->2 w5, 1->3 w2` against itself passes, and so does the
empty pair. -/
theorem containment (A B : Graph) :
    ((main A B).status = Status.RUNNING ↔
      ∀ n ∈ A.masterNodesRange, ∀ e ∈ A.edges n,
        ∃ e2 ∈ B.edges n, e2.edgeDst = e.edgeDst ∧ e2.edgeData = e.edgeData) ∧
    (exitValue (main A B) = some 0 ↔ (main A B).status = Status.RUNNING) ∧
    (∃ A2 B2 : Graph, (main A2 B2).status = Status.RUNNING ∧
      ∃ n ∈ B2.masterNodesRange, ∃ e ∈ B2.edges n, e ∉ A2.edges n) ∧
    (main twoEdges twoEdges).status = Status.RUNNING ∧
    (main emptyGraph emptyGraph).status = Status.RUNNING := by
  refine ⟨passes_iff A B, ?_,
    ⟨oneEdge5, extraEdge, by decide, 1, by decide, ⟨2, 9⟩, ?_, ?_⟩, by decide, by decide⟩
  · unfold exitValue
    cases (main A B).status <;> simp
  · simp [extraEdge]
  · simp [oneEdge5]

/-- Witness of C1: the equivalence at the pair of the first scenario. -/
theorem containment_witness :
    (main twoEdges twoEdges).status = Status.RUNNING ∧
      ∀ n ∈ twoEdges.masterNodesRange, ∀ e ∈ twoEdges.edges n,
        ∃ e2 ∈ twoEdges.edges n, e2.edgeDst = e.edgeDst ∧ e2.edgeData = e.edgeData :=
  ⟨by decide, (containment twoEdges twoEdges).1.1 (by decide)⟩

/-- C2 (one-directional check). When every node's edge list in `B2` contains
every edge of that node's list in `B`, a check that passes on `(A, B)` passes
on `(A, B2)`, and the run on `(A, B2)` prints nothing but the progress line:
the edges that only the second graph has are not reported. -/
theorem one_directional (A B B2 : Graph)
    (hsub : ∀ n, ∀ e ∈ B.edges n, e ∈ B2.edges n)
    (hpass : (main A B).status = Status.RUNNING) :
    (main A B2).status = Status.RUNNING ∧ (main A B2).out = [Line.graphsLoaded] := by
  have h2 : Passes A B2 := by
    rw [passes_iff]
    intro n hn e he
    obtain ⟨e2, he2, hd⟩ := (passes_iff A B).1 hpass n hn e he
    exact ⟨e2, hsub n e2 he2, hd⟩
  refine ⟨h2, ?_⟩
  rw [main_of_all A B2 ((passes_iff_all A B2).1 h2)]

/-- Witness of C2: the first graph `1->2 w5`, checked against itself and then
against `1->2 w5, 2->3 w9`. -/
theorem one_directional_witness :
    (main oneEdge5 oneEdge5).status = Status.RUNNING ∧
      (main oneEdge5 extraEdge).status = Status.RUNNING ∧
      (main oneEdge5 extraEdge).out = [Line.graphsLoaded] :=
  ⟨by decide,
    (one_directional oneEdge5 oneEdge5 extraEdge
      (by
        intro n e he
        match n with
        | 0 => exact he
        | 1 => simp [oneEdge5] at he
        | k + 2 => simp [oneEdge5] at he)
      (by decide))⟩

/-- C3 (diagnostic soundness). Whenever the run prints a mismatch line naming
`src` and `dst`, these are the global identifiers of a master node `n` of the
first graph and of the destination of an edge of `n` there for which the
second graph's edge list of `n` holds no edge with that destination and an
equal weight; and the run has then been aborted: it does not return. -/
theorem diagnostic_sound (A B : Graph) (src dst : Nat)
    (hline : Line.edgeNotFound src dst ∈ (main A B).out) :
    (∃ n ∈ A.masterNodesRange, ∃ e ∈ A.edges n,
        src = A.getGID n ∧ dst = A.getGID e.edgeDst ∧
        ¬ ∃ e2 ∈ B.edges n, e2.edgeDst = e.edgeDst ∧ e2.edgeData = e.edgeData) ∧
      (main A B).status = Status.ABORTED ∧ exitValue (main A B) = none := by
  by_cases hp : Passes A B
  · rw [main_of_all A B ((passes_iff_all A B).1 hp)] at hline
    simp at hline
  · obtain ⟨pre, ⟨n, e⟩, post, h1, _, h3, h4⟩ := main_of_fail A B hp
    rw [h4] at hline ⊢
    simp only [mismatchLine, List.mem_cons, Line.edgeNotFound.injEq, List.mem_singleton,
      false_or, List.not_mem_nil, or_false, reduceCtorEq] at hline
    have hmem : (n, e) ∈ traversal A := by rw [h1]; simp
    obtain ⟨hn, he⟩ := (mem_traversal A n e).1 hmem
    refine ⟨⟨n, hn, e, he, hline.1, hline.2, ?_⟩, rfl, rfl⟩
    intro hm
    have := (foundIn_iff B (n, e)).2 hm
    rw [h3] at this
    exact absurd this (by decide)

/-- Witness of C3: `1->2 w5` checked against `1->2 w7` prints the line naming
`1` and `2`. -/
theorem diagnostic_sound_witness :
    Line.edgeNotFound 1 2 ∈ (main oneEdge5 oneEdge7).out ∧
      (main oneEdge5 oneEdge7).status = Status.ABORTED ∧
      exitValue (main oneEdge5 oneEdge7) = none :=
  ⟨by decide, (diagnostic_sound oneEdge5 oneEdge7 1 2 (by decide)).2⟩

/-- C4, as stated, fails: the expected weight is not carried by the mismatch.
The runs of `1->2 w5` and of `1->2 w6` against `1->2 w7` print the same lines,
so no reading of the printed lines yields the weight of the unmatched edge. -/
theorem mismatch_weight_not_carried :
    (main oneEdge5 oneEdge7).out =
      [Line.graphsLoaded, Line.edgeNotFound 1 2, Line.anEdgeWasNotFound] ∧
    (main oneEdge6 oneEdge7).out =
      [Line.graphsLoaded, Line.edgeNotFound 1 2, Line.anEdgeWasNotFound] ∧
    ¬ ∃ weightOf : List Line → Nat, ∀ A B : Graph, (main A B).status = Status.ABORTED →
        ∃ n ∈ A.masterNodesRange, ∃ e ∈ A.edges n,
          (¬ ∃ e2 ∈ B.edges n, e2.edgeDst = e.edgeDst ∧ e2.edgeData = e.edgeData) ∧
          weightOf (main A B).out = e.edgeData := by
  refine ⟨by decide, by decide, ?_⟩
  rintro ⟨weightOf, hw⟩
  have h5 :
      weightOf [Line.graphsLoaded, Line.edgeNotFound 1 2, Line.anEdgeWasNotFound] = 5 := by
    obtain ⟨n, _, e, he, _, h⟩ := hw oneEdge5 oneEdge7 (by decide)
    have hout : (main oneEdge5 oneEdge7).out =
        [Line.graphsLoaded, Line.edgeNotFound 1 2, Line.anEdgeWasNotFound] := by
      decide
    rw [hout] at h
    match n with
    | 0 =>
      simp only [oneEdge5, List.mem_singleton] at he
      rw [h, he]
    | 1 => simp [oneEdge5] at he
    | k + 2 => simp [oneEdge5] at he
  have h6 :
      weightOf [Line.graphsLoaded, Line.edgeNotFound 1 2, Line.anEdgeWasNotFound] = 6 := by
    obtain ⟨n, _, e, he, _, h⟩ := hw oneEdge6 oneEdge7 (by decide)
    have hout : (main oneEdge6 oneEdge7).out =
        [Line.graphsLoaded, Line.edgeNotFound 1 2, Line.anEdgeWasNotFound] := by
      decide
    rw [hout] at h
    match n with
    | 0 =>
      simp only [oneEdge6, List.mem_singleton] at he
      rw [h, he]
    | 1 => simp [oneEdge6] at he
    | k + 2 => simp [oneEdge6] at he
  rw [h5] at h6
  exact absurd h6 (by decide)

/-- C4, amended. When some edge of a master node of the first graph has no
match in the second, then in whatever order `do_all` takes the master nodes,
one at a time, the run aborts and the one mismatch line it prints carries the
pair (global identifier of the node, global identifier of the destination) of
an edge of the first graph that has no match in the second. -/
theorem mismatch_payload (A B : Graph) (order : List Nat)
    (horder : order.Perm A.masterNodesRange)
    (hmiss : ∃ n ∈ A.masterNodesRange, ∃ e ∈ A.edges n,
      ¬ ∃ e2 ∈ B.edges n, e2.edgeDst = e.edgeDst ∧ e2.edgeData = e.edgeData) :
    ∃ n ∈ A.masterNodesRange, ∃ e ∈ A.edges n,
      (¬ ∃ e2 ∈ B.edges n, e2.edgeDst = e.edgeDst ∧ e2.edgeData = e.edgeData) ∧
      (runIn A B order).status = Status.ABORTED ∧
      (runIn A B order).out =
        [Line.graphsLoaded, Line.edgeNotFound (A.getGID n) (A.getGID e.edgeDst),
          Line.anEdgeWasNotFound] := by
  rcases first_missing B (traversalIn A order) with hall | ⟨pre, ⟨n, e⟩, post, h1, h2, h3⟩
  · obtain ⟨n, hn, e, he, hno⟩ := hmiss
    have hmem : (n, e) ∈ traversalIn A order :=
      (mem_traversalIn A order n e).2 ⟨horder.mem_iff.2 hn, he⟩
    exact absurd ((foundIn_iff B (n, e)).1 (hall _ hmem)) hno
  · have hmem : (n, e) ∈ traversalIn A order := by rw [h1]; simp
    obtain ⟨hn, he⟩ := (mem_traversalIn A order n e).1 hmem
    refine ⟨n, horder.mem_iff.1 hn, e, he, not_matched_of_foundIn B (n, e) h3, ?_, ?_⟩
    · rw [runIn_of_split A B order pre post (n, e) h1 h2 h3]
    · rw [runIn_of_split A B order pre post (n, e) h1 h2 h3]
      rfl

/-- Witness of C4, amended: `1->2 w5` against `1->2 w7`, the master nodes taken
in the order `2, 0, 1` of their handles, and in range order, which is the run
of `main`. -/
theorem mismatch_payload_witness :
    [2, 0, 1].Perm oneEdge5.masterNodesRange ∧
    (∃ n ∈ oneEdge5.masterNodesRange, ∃ e ∈ oneEdge5.edges n,
      (¬ ∃ e2 ∈ oneEdge7.edges n, e2.edgeDst = e.edgeDst ∧ e2.edgeData = e.edgeData) ∧
      (runIn oneEdge5 oneEdge7 [2, 0, 1]).status = Status.ABORTED ∧
      (runIn oneEdge5 oneEdge7 [2, 0, 1]).out =
        [Line.graphsLoaded,
          Line.edgeNotFound (oneEdge5.getGID n) (oneEdge5.getGID e.edgeDst),
          Line.anEdgeWasNotFound]) ∧
    (runIn oneEdge5 oneEdge7 [2, 0, 1]).out =
      [Line.graphsLoaded, Line.edgeNotFound 1 2, Line.anEdgeWasNotFound] ∧
    main oneEdge5 oneEdge7 = runIn oneEdge5 oneEdge7 oneEdge5.masterNodesRange :=
  ⟨by decide,
    mismatch_payload oneEdge5 oneEdge7 [2, 0, 1] (by decide)
      ⟨0, by decide, ⟨1, 5⟩, by simp [oneEdge5], by simp [oneEdge7]⟩,
    by decide, rfl⟩

theorem step_congr (A B B2 : Graph) (h : B2.edges = B.edges) : step A B2 = step A B := by
  funext s v
  unfold step
  cases s.status with
  | ABORTED => rfl
  | RUNNING => simp only [checkEdges, h]

/-- C5, as stated, fails: node `7` is a master node of the first shard and
cannot be resolved in the second shard, yet the check raises no error at all:
it compares the edge lists at handle `0` and returns normally. -/
theorem incongruence_not_detected :
    0 ∈ incongruentA.masterNodesRange ∧ incongruentA.getGID 0 = 7 ∧
    resolveLocal incongruentB 7 = none ∧
    (main incongruentA incongruentB).status = Status.RUNNING ∧
    (main incongruentA incongruentB).out = [Line.graphsLoaded] ∧
    exitValue (main incongruentA incongruentB) = some 0 := by
  decide

/-- C5, amended. When a master node `n` of the first shard cannot be resolved
in the second shard, the check does not notice: it never consults the second
shard's identifiers, node count or master range (any shard with the same edge
lists per handle gives the same run), and the run either returns normally
having printed only the progress line, or aborts with the ordinary mismatch
line of an edge of the first shard that is unmatched at the same handle. -/
theorem incongruence_unchecked (A B : Graph) (n : Nat)
    (_hn : n ∈ A.masterNodesRange) (_hres : resolveLocal B (A.getGID n) = none) :
    (∀ B2 : Graph, B2.edges = B.edges → main A B2 = main A B) ∧
    (((main A B).status = Status.RUNNING ∧ (main A B).out = [Line.graphsLoaded]) ∨
      ∃ m ∈ A.masterNodesRange, ∃ e ∈ A.edges m,
        (¬ ∃ e2 ∈ B.edges m, e2.edgeDst = e.edgeDst ∧ e2.edgeData = e.edgeData) ∧
        (main A B).status = Status.ABORTED ∧
        (main A B).out =
          [Line.graphsLoaded, Line.edgeNotFound (A.getGID m) (A.getGID e.edgeDst),
            Line.anEdgeWasNotFound]) := by
  constructor
  · intro B2 h
    rw [main_eq_foldl, main_eq_foldl, step_congr A B B2 h]
  · by_cases hp : Passes A B
    · left
      rw [main_of_all A B ((passes_iff_all A B).1 hp)]
      exact ⟨rfl, rfl⟩
    · right
      obtain ⟨pre, ⟨m, e⟩, post, h1, _, h3, h4⟩ := main_of_fail A B hp
      have hmem : (m, e) ∈ traversal A := by rw [h1]; simp
      obtain ⟨hm, he⟩ := (mem_traversal A m e).1 hmem
      refine ⟨m, hm, e, he, ?_, ?_, ?_⟩
      · intro hmatch
        have := (foundIn_iff B (m, e)).2 hmatch
        rw [h3] at this
        exact absurd this (by decide)
      · rw [h4]
      · rw [h4]; rfl

/-- Witness of C5, amended: node `7`, mastered at handle `0` of the first
shard and absent from the second. -/
theorem incongruence_unchecked_witness :
    0 ∈ incongruentA.masterNodesRange ∧
    resolveLocal incongruentB (incongruentA.getGID 0) = none ∧
    (∀ B2 : Graph, B2.edges = incongruentB.edges →
      main incongruentA B2 = main incongruentA incongruentB) :=
  ⟨by decide, by decide,
    (incongruence_unchecked incongruentA incongruentB 0 (by decide) (by decide)).1⟩

theorem stateAfterIn_before (A B : Graph) (order : List Nat) (pre post : List Visit)
    (v : Visit) (htrav : traversalIn A order = pre ++ v :: post)
    (hpre : ∀ w ∈ pre, foundIn B w = true) (k : Nat) (hk : k ≤ pre.length) :
    stateAfterIn A B order k = ⟨Status.RUNNING, [Line.graphsLoaded], pre.take k⟩ := by
  unfold stateAfterIn start
  rw [htrav, List.take_append_of_le_length hk,
    foldl_step_all A B _ _ _ (fun w hw => hpre w (List.mem_of_mem_take hw))]
  simp

theorem stateAfterIn_beyond (A B : Graph) (order : List Nat) (pre post : List Visit)
    (v : Visit) (htrav : traversalIn A order = pre ++ v :: post)
    (hpre : ∀ w ∈ pre, foundIn B w = true) (hv : foundIn B v = false)
    (k : Nat) (hk : pre.length < k) :
    stateAfterIn A B order k =
      ⟨Status.ABORTED, [Line.graphsLoaded, mismatchLine A v.1 v.2, Line.anEdgeWasNotFound],
        pre ++ [v]⟩ := by
  obtain ⟨j, rfl⟩ : ∃ j, k = pre.length + (j + 1) := ⟨k - pre.length - 1, by omega⟩
  unfold stateAfterIn start
  rw [htrav, List.take_append, List.take_succ_cons,
    foldl_step_split A B pre _ v _ _ hpre hv]
  simp

theorem stateAfterIn_length (A B : Graph) (order : List Nat) :
    stateAfterIn A B order (traversalIn A order).length = runIn A B order := by
  unfold stateAfterIn
  rw [List.take_length, runIn_eq_foldl]

theorem stateAfterIn_terminal (A B : Graph) (order : List Nat) (j k : Nat) (hjk : j ≤ k)
    (hab : (stateAfterIn A B order j).status = Status.ABORTED) :
    stateAfterIn A B order k = stateAfterIn A B order j := by
  have hsplit : (traversalIn A order).take k =
      (traversalIn A order).take j ++ ((traversalIn A order).take k).drop j := by
    have h := List.take_append_drop j ((traversalIn A order).take k)
    rw [List.take_take, min_eq_left hjk] at h
    exact h.symm
  unfold stateAfterIn at hab ⊢
  rw [hsplit, List.foldl_append, foldl_step_aborted A B _ _ hab]

theorem passes_congr (A A2 B B2 : Graph) (hm : A.masterNodesRange = A2.masterNodesRange)
    (hA : ∀ n e, e ∈ A.edges n ↔ e ∈ A2.edges n)
    (hB : ∀ n e, e ∈ B.edges n ↔ e ∈ B2.edges n) :
    Passes A B ↔ Passes A2 B2 := by
  rw [passes_iff, passes_iff, hm]
  constructor
  · intro h n hn e he
    obtain ⟨e2, he2, hd⟩ := h n hn e ((hA n e).2 he)
    exact ⟨e2, (hB n e2).1 he2, hd⟩
  · intro h n hn e he
    obtain ⟨e2, he2, hd⟩ := h n hn e ((hA n e).1 he)
    exact ⟨e2, (hB n e2).2 he2, hd⟩

/-- C8 (existence, not multiplicity or order). The inner search yields `found`
exactly when the second list holds at least one edge with equal destination
and equal weight. Hence the pass/fail outcome depends only on the sets of
(destination, weight) pairs per node: it is the same for two pairs of graphs
with the same master range whose edge lists have the same members node by
node; in particular it is unchanged by permuting edge lists and by removing
duplicate edges, in either graph. The first graph holding `1->2 w5` twice
passes against the second holding it once. -/
theorem existence_only :
    (∀ (edgeDst edgeData : Nat) (eb : List Edge),
      searchEdges edgeDst edgeData eb = true ↔
        ∃ edge2 ∈ eb, edge2.edgeDst = edgeDst ∧ edge2.edgeData = edgeData) ∧
    (∀ A A2 B B2 : Graph, A.masterNodesRange = A2.masterNodesRange →
      (∀ n e, e ∈ A.edges n ↔ e ∈ A2.edges n) →
      (∀ n e, e ∈ B.edges n ↔ e ∈ B2.edges n) →
      ((main A B).status = Status.RUNNING ↔ (main A2 B2).status = Status.RUNNING)) ∧
    (∀ A A2 B B2 : Graph, A.masterNodesRange = A2.masterNodesRange →
      (∀ n, (A.edges n).Perm (A2.edges n)) →
      (∀ n, (B.edges n).Perm (B2.edges n)) →
      ((main A B).status = Status.RUNNING ↔ (main A2 B2).status = Status.RUNNING)) ∧
    (∀ A B : Graph,
      (main A B).status = Status.RUNNING ↔
        (main { A with edges := fun n => (A.edges n).dedup }
          { B with edges := fun n => (B.edges n).dedup }).status = Status.RUNNING) ∧
    (main doubledEdge oneEdge5).status = Status.RUNNING := by
  refine ⟨searchEdges_iff, passes_congr, ?_, ?_, by decide⟩
  · intro A A2 B B2 hm hA hB
    exact passes_congr A A2 B B2 hm (fun n _ => (hA n).mem_iff) (fun n _ => (hB n).mem_iff)
  · intro A B
    exact passes_congr A _ B _ rfl (fun n e => List.mem_dedup.symm)
      (fun n e => List.mem_dedup.symm)

/-- Witness of C8: the list holding `1->2 w5` twice has the members of the
list holding it once, so both first graphs fare alike against `1->2 w5`. -/
theorem existence_only_witness :
    (main doubledEdge oneEdge5).status = Status.RUNNING ↔
      (main oneEdge5 oneEdge5).status = Status.RUNNING :=
  existence_only.2.1 doubledEdge oneEdge5 oneEdge5 oneEdge5 (by decide)
    (by
      intro n e
      match n with
      | 0 => simp [doubledEdge, oneEdge5]
      | 1 => simp [doubledEdge, oneEdge5]
      | k + 2 => simp [doubledEdge, oneEdge5])
    (fun _ _ => Iff.rfl)

theorem mem_globalEdges (g : Graph) (t : Nat × Nat × Nat) :
    t ∈ globalEdges g ↔
      ∃ h < g.numNodes, ∃ e ∈ g.edges h,
        (g.getGID h, g.getGID e.edgeDst, e.edgeData) = t := by
  unfold globalEdges
  simp only [List.mem_flatMap, List.mem_range, List.mem_map]

theorem mem_masterGlobalEdges (g : Graph) (t : Nat × Nat × Nat) :
    t ∈ masterGlobalEdges g ↔
      ∃ n ∈ g.masterNodesRange, ∃ e ∈ g.edges n,
        (g.getGID n, g.getGID e.edgeDst, e.edgeData) = t := by
  unfold masterGlobalEdges
  simp only [List.mem_map]
  constructor
  · rintro ⟨⟨n, e⟩, hv, rfl⟩
    obtain ⟨hn, he⟩ := (mem_traversal g n e).1 hv
    exact ⟨n, hn, e, he, rfl⟩
  · rintro ⟨n, hn, e, he, rfl⟩
    exact ⟨(n, e), (mem_traversal g n e).2 ⟨hn, he⟩, rfl⟩

theorem passes_iff_global (A B : Graph) (hwA : WellFormed A) (hwB : WellFormed B)
    (hsame : SameIdMap A B) (hinj : IdMapInjective A) :
    Passes A B ↔ ∀ t ∈ masterGlobalEdges A, t ∈ globalEdges B := by
  obtain ⟨hnum, hgid⟩ := hsame
  rw [passes_iff]
  constructor
  · intro h t ht
    obtain ⟨n, hn, e, he, rfl⟩ := (mem_masterGlobalEdges A t).1 ht
    obtain ⟨e2, he2, hd, hw⟩ := h n hn e he
    have hnlt : n < A.numNodes := hwA.1 n hn
    have hdlt : e.edgeDst < A.numNodes := hwA.2 n hnlt e he
    refine (mem_globalEdges B _).2 ⟨n, hnum ▸ hnlt, e2, he2, ?_⟩
    rw [hd, hw, hgid n hnlt, hgid e.edgeDst hdlt]
  · intro h n hn e he
    have hnlt : n < A.numNodes := hwA.1 n hn
    have hdlt : e.edgeDst < A.numNodes := hwA.2 n hnlt e he
    have ht := h _ ((mem_masterGlobalEdges A _).2 ⟨n, hn, e, he, rfl⟩)
    obtain ⟨m, hm, e2, he2, heq⟩ := (mem_globalEdges B _).1 ht
    simp only [Prod.mk.injEq] at heq
    obtain ⟨h1, h2, h3⟩ := heq
    have hm2 : m < A.numNodes := hnum ▸ hm
    have hd2 : e2.edgeDst < A.numNodes := hnum ▸ hwB.2 m hm e2 he2
    have hmn : m = n := hinj m hm2 n hnlt (by rw [hgid m hm2]; exact h1)
    subst hmn
    have hdd : e2.edgeDst = e.edgeDst :=
      hinj _ hd2 _ hdlt (by rw [hgid _ hd2]; exact h2)
    exact ⟨e2, he2, hdd, h3⟩

/-- C9 (no identifier translation). The outcome of the check does not depend
on the handle-to-identifier mapping of either shard: the second shard's edge
list is read at the first shard's handle and destinations are compared as
handles. So for well-formed shards whose mappings are identical and injective
the check passes iff every global edge (source identifier, destination
identifier, weight) of the first shard's master nodes is a global edge of the
second shard; and without identical mappings there are well-formed shards with
injective mappings and the same set of global edges on which the check
fails. -/
theorem no_translation :
    (∀ (A B : Graph) (gidA gidB : Nat → Nat),
      ((main { A with getGID := gidA } { B with getGID := gidB }).status = Status.RUNNING ↔
        (main A B).status = Status.RUNNING)) ∧
    (∀ A B : Graph, WellFormed A → WellFormed B → SameIdMap A B → IdMapInjective A →
      ((main A B).status = Status.RUNNING ↔
        ∀ t ∈ masterGlobalEdges A, t ∈ globalEdges B)) ∧
    (∃ A B : Graph, WellFormed A ∧ WellFormed B ∧ IdMapInjective A ∧ IdMapInjective B ∧
      (∀ t, t ∈ globalEdges A ↔ t ∈ globalEdges B) ∧
      (∀ t, t ∈ masterGlobalEdges A ↔ t ∈ masterGlobalEdges B) ∧
      (main A B).status = Status.ABORTED) := by
  refine ⟨?_, passes_iff_global, ?_⟩
  · intro A B gidA gidB
    exact passes_congr _ A _ B rfl (fun _ _ => Iff.rfl) (fun _ _ => Iff.rfl)
  · refine ⟨shardNumberedA, shardNumberedB, by decide, by decide, by decide, by decide,
      ?_, ?_, by decide⟩
    · intro t
      have h : globalEdges shardNumberedA = globalEdges shardNumberedB := by decide
      rw [h]
    · intro t
      have h : masterGlobalEdges shardNumberedA = masterGlobalEdges shardNumberedB := by
        decide
      rw [h]

/-- Witness of C9: the shard `1->2 w5` against the shard `1->2 w5, 2->3 w9`,
both numbering the nodes alike. -/
theorem no_translation_witness :
    WellFormed oneEdge5 ∧ WellFormed extraEdge ∧ SameIdMap oneEdge5 extraEdge ∧
    IdMapInjective oneEdge5 ∧
    ((main oneEdge5 extraEdge).status = Status.RUNNING ↔
      ∀ t ∈ masterGlobalEdges oneEdge5, t ∈ globalEdges extraEdge) :=
  ⟨by decide, by decide, by decide, by decide,
    no_translation.2.1 oneEdge5 extraEdge (by decide) (by decide) (by decide) (by decide)⟩

theorem firstMismatch_main (A B : Graph) :
    firstMismatch (main A B).out =
      ((traversal A).find? fun v => !foundIn B v).map
        fun v => (A.getGID v.1, A.getGID v.2.edgeDst) := by
  rcases first_missing B (traversal A) with hall | ⟨pre, v, post, h1, h2, h3⟩
  · rw [main_of_all A B hall]
    have hnone : ((traversal A).find? fun v => !foundIn B v) = none := by
      rw [List.find?_eq_none]
      intro v hv
      simp [hall v hv]
    rw [hnone]
    rfl
  · rw [main_of_split A B pre post v h1 h2 h3, h1, List.find?_append]
    have hnone : (pre.find? fun v => !foundIn B v) = none := by
      rw [List.find?_eq_none]
      intro w hw
      simp [h2 w hw]
    rw [hnone]
    simp [List.find?_cons, h3, firstMismatch, mismatchLine]

theorem traversal_shardOf (adjA : Nat → List Edge) (p : Part) (hp : p.Valid) :
    traversal (shardOf adjA p) = (globalTraversal adjA p.masters).map (localVisit p) := by
  unfold traversal globalTraversal shardOf
  simp only
  induction p.masters with
  | nil => rfl
  | cons n rest ih =>
    rw [List.map_cons, List.flatMap_cons, List.flatMap_cons, List.map_append, ih, hp n]
    congr 1
    simp [List.map_map, localVisit, Function.comp_def]

theorem foundIn_shardOf (adjB : Nat → List Edge) (p : Part) (hp : p.Valid) (v : Visit) :
    foundIn (shardOf adjB p) (localVisit p v) =
      searchEdges v.2.edgeDst v.2.edgeData (adjB v.1) := by
  rw [Bool.eq_iff_iff, searchEdges_iff]
  unfold foundIn
  rw [searchEdges_iff]
  simp only [shardOf, localVisit, hp v.1, List.mem_map]
  constructor
  · rintro ⟨e2, ⟨e, he, rfl⟩, hd, hw⟩
    refine ⟨e, he, ?_, hw⟩
    have := congrArg p.toGlobal hd
    simpa [hp e.edgeDst, hp v.2.edgeDst] using this
  · rintro ⟨e, he, hd, hw⟩
    exact ⟨⟨p.toLocal e.edgeDst, e.edgeData⟩, ⟨e, he, rfl⟩, by simp [hd], hw⟩

theorem report_shardOf (adjA adjB : Nat → List Edge) (p : Part) (hp : p.Valid) :
    firstMismatch (main (shardOf adjA p) (shardOf adjB p)).out =
      globalReport adjA adjB p.masters := by
  rw [firstMismatch_main, traversal_shardOf adjA p hp, List.find?_map, Option.map_map]
  unfold globalReport
  have hfun : ((fun v => !foundIn (shardOf adjB p) v) ∘ localVisit p) =
      fun v => !searchEdges v.2.edgeDst v.2.edgeData (adjB v.1) := by
    funext v
    simp [Function.comp_def, foundIn_shardOf adjB p hp v]
  rw [hfun]
  congr 1
  funext v
  simp [Function.comp_def, shardOf, localVisit, hp v.1, hp v.2.edgeDst]

theorem globalReport_append (adjA adjB : Nat → List Edge) (l1 l2 : List Nat) :
    globalReport adjA adjB (l1 ++ l2) =
      match globalReport adjA adjB l1 with
      | some r => some r
      | none => globalReport adjA adjB l2 := by
  unfold globalReport globalTraversal
  rw [List.flatMap_append, List.find?_append]
  rcases h : List.find? (fun v : Visit => !searchEdges v.2.edgeDst v.2.edgeData (adjB v.1))
      (l1.flatMap fun n => (adjA n).map (Prod.mk n)) with _ | v <;> simp

theorem jobReport_eq (adjA adjB : Nat → List Edge) (procs : List Proc)
    (hsame : ∀ q ∈ procs, q.second = q.first) (hv : ∀ q ∈ procs, q.first.Valid) :
    jobReport adjA adjB procs =
      globalReport adjA adjB (procs.flatMap fun q => q.first.masters) := by
  induction procs with
  | nil => rfl
  | cons q rest ih =>
    rw [List.flatMap_cons, globalReport_append]
    unfold jobReport
    rw [hsame q (List.mem_cons_self _ _),
      report_shardOf adjA adjB q.first (hv q (List.mem_cons_self _ _)),
      ih (fun r hr => hsame r (List.mem_cons_of_mem _ hr))
        (fun r hr => hv r (List.mem_cons_of_mem _ hr))]

theorem passes_shardOf (adjA adjB : Nat → List Edge) (p : Part) (hp : p.Valid) :
    Passes (shardOf adjA p) (shardOf adjB p) ↔
      ∀ n ∈ p.masters, ∀ e ∈ adjA n,
        ∃ e2 ∈ adjB n, e2.edgeDst = e.edgeDst ∧ e2.edgeData = e.edgeData := by
  rw [passes_iff_all, traversal_shardOf adjA p hp]
  simp only [List.mem_map, forall_exists_index, and_imp, forall_apply_eq_imp_iff₂,
    foundIn_shardOf adjB p hp, searchEdges_iff]
  unfold globalTraversal
  simp only [List.mem_flatMap, List.mem_map]
  constructor
  · intro h n hn e he
    exact h (n, e) ⟨n, hn, e, he, rfl⟩
  · rintro h v ⟨n, hn, e, he, rfl⟩
    exact h n hn e he

theorem jobPasses_iff (adjA adjB : Nat → List Edge) (procs : List Proc)
    (hsame : ∀ q ∈ procs, q.second = q.first) (hv : ∀ q ∈ procs, q.first.Valid) :
    jobPasses adjA adjB procs ↔
      ∀ n ∈ procs.flatMap (fun q => q.first.masters), ∀ e ∈ adjA n,
        ∃ e2 ∈ adjB n, e2.edgeDst = e.edgeDst ∧ e2.edgeData = e.edgeData := by
  unfold jobPasses
  simp only [List.mem_flatMap]
  constructor
  · rintro h n ⟨q, hq, hn⟩ e he
    have hq2 := h q hq
    rw [hsame q hq] at hq2
    exact (passes_shardOf adjA adjB q.first (hv q hq)).1 hq2 n hn e he
  · intro h q hq
    rw [hsame q hq]
    exact (passes_shardOf adjA adjB q.first (hv q hq)).2
      (fun n hn e he => h n ⟨q, hq, hn⟩ e he)

end SamenessCheck

namespace AigScript

theorem select_default (strategy : Nat) (h : strategy = 0 ∨ 4 < strategy) :
    select strategy = Pipeline.aig_script := by
  match strategy with
  | 0 => rfl
  | 1 => omega
  | 2 => omega
  | 3 => omega
  | 4 => omega
  | k + 5 => simp [select]

/-- C10 (strategy dispatch). With a network stored, strategies 1, 2, 3 and 4
construct `aig_script2`, `aig_script3`, `aig_script4` and `aig_script5`, and
strategy 0 and every strategy above 4 construct `aig_script`: an out-of-range
strategy is not rejected and the execution is the one of strategy 0. Exactly
one pipeline is run, the selected one, and its result replaces the current
network. With an empty store no pipeline is run and the store stays empty. -/
theorem strategy_dispatch {Ntk : Type} (lib : Lib Ntk) (strategy : Nat)
    (before after : List Ntk) (opt : Ntk) :
    (select 1 = Pipeline.aig_script2 ∧ select 2 = Pipeline.aig_script3 ∧
      select 3 = Pipeline.aig_script4 ∧ select 4 = Pipeline.aig_script5) ∧
    (strategy = 0 ∨ 4 < strategy →
      select strategy = Pipeline.aig_script ∧
      execute lib strategy (Store.holding before opt after) =
        execute lib 0 (Store.holding before opt after)) ∧
    (execute lib strategy (Store.holding before opt after)).ran = [select strategy] ∧
    (execute lib strategy (Store.holding before opt after)).store =
      Store.holding before (lib.run (select strategy) opt) after ∧
    (execute lib strategy Store.empty).ran = [] ∧
    (execute lib strategy Store.empty).store = Store.empty ∧
    (execute lib strategy Store.empty).out = [Msg.noAigStored] := by
  refine ⟨⟨rfl, rfl, rfl, rfl⟩, ?_, rfl, rfl, rfl, rfl, rfl⟩
  intro h
  have hs := select_default strategy h
  refine ⟨hs, ?_⟩
  unfold execute
  simp only [hs]
  rfl

/-- Witness of C10: strategy 7 on a store whose current network is `20`: the
pipeline `aig_script` runs, as for strategy 0. -/
theorem strategy_dispatch_witness :
    select 7 = Pipeline.aig_script ∧
    execute demoLib 7 (Store.holding [10] 20 [30]) =
      execute demoLib 0 (Store.holding [10] 20 [30]) ∧
    (execute demoLib 7 (Store.holding [10] 20 [30])).ran = [Pipeline.aig_script] :=
  have h := strategy_dispatch demoLib 7 [10] [30] 20
  ⟨(h.2.1 (Or.inr (by decide))).1, (h.2.1 (Or.inr (by decide))).2, h.2.2.1⟩

end AigScript
